import Mathlib

/-!
Verification of the decision engine of the AI snake game (`gameAI.py`).

The Python module drives a snake on a `GRID_WIDTH × GRID_HEIGHT` grid using
an A* path search (`find_path_astar`) over the grid with the snake body as
obstacles (tail excluded), a safety fallback (`get_safe_direction`) when no
path exists, and a per-tick orchestration step (`update_ai`).

The embedding below is a direct translation of the Python source:
cells are pairs of integers, the open set is a Python `heapq` binary heap
(translated operation by operation, including the exact `_siftdown` and
`_siftup` routines of CPython's `heapq`), and the search loop reproduces the
source's behaviour faithfully — including the in-place mutation of nodes
that already sit inside the heap (`existing.g = tentative_g; existing.f = ...`),
which the source performs without restoring the heap invariant.
`random.choice` in the fallback is modelled by an arbitrary index parameter.
-/

namespace SnakeAI

/-- A grid cell `(x, y)`, as in the Python tuples. -/
abbrev Cell := Int × Int

/-- Direction constant `UP = (0, -1)`. -/
def UP : Cell := (0, -1)
/-- Direction constant `DOWN = (0, 1)`. -/
def DOWN : Cell := (0, 1)
/-- Direction constant `LEFT = (-1, 0)`. -/
def LEFT : Cell := (-1, 0)
/-- Direction constant `RIGHT = (1, 0)`. -/
def RIGHT : Cell := (1, 0)
/-- The list `DIRECTIONS = [UP, DOWN, LEFT, RIGHT]`. -/
def DIRECTIONS : List Cell := [UP, DOWN, LEFT, RIGHT]

/-- Constant `GRID_WIDTH = WINDOW_WIDTH // GRID_SIZE = 800 // 20`. -/
def GRID_WIDTH : Nat := 800 / 20

/-- Constant `GRID_HEIGHT = WINDOW_HEIGHT // GRID_SIZE = 600 // 20`. -/
def GRID_HEIGHT : Nat := 600 / 20

/-- Manhattan distance heuristic: `abs(a[0]-b[0]) + abs(a[1]-b[1])`. -/
def heuristic (a b : Cell) : Nat := (a.1 - b.1).natAbs + (a.2 - b.2).natAbs

/-- The bounds check `0 <= x < GRID_WIDTH and 0 <= y < GRID_HEIGHT`
(with the grid dimensions `W`, `H` as parameters). -/
def inBoundsB (W H : Nat) (c : Cell) : Bool :=
  decide (0 ≤ c.1) && decide (c.1 < (W : Int)) &&
  decide (0 ≤ c.2) && decide (c.2 < (H : Int))

/-- Valid neighbouring positions (`get_neighbors`): the four orthogonal neighbours of `pos` that are in
bounds and not in `body[:-1]` (the snake body with its tail dropped),
in `DIRECTIONS` order. -/
def get_neighbors (W H : Nat) (body : List Cell) (pos : Cell) : List Cell :=
  (DIRECTIONS.map fun d => (pos.1 + d.1, pos.2 + d.2)).filter fun c =>
    inBoundsB W H c && !(decide (c ∈ body.dropLast))

/-- The `Node` class of the A* search: coordinates, `g`, `h`, `f = g + h`,
and the back-reference `parent` used for path reconstruction. -/
inductive ANode : Type where
  | mk : Int → Int → Nat → Nat → Nat → Option ANode → ANode

/-- Coordinate `x` of a node. -/
def ANode.x : ANode → Int
  | .mk x _ _ _ _ _ => x

/-- Coordinate `y` of a node. -/
def ANode.y : ANode → Int
  | .mk _ y _ _ _ _ => y

/-- Accumulated cost `g` of a node. -/
def ANode.g : ANode → Nat
  | .mk _ _ g _ _ _ => g

/-- Heuristic value `h` of a node. -/
def ANode.h : ANode → Nat
  | .mk _ _ _ h _ _ => h

/-- Priority `f` of a node. -/
def ANode.f : ANode → Nat
  | .mk _ _ _ _ f _ => f

/-- Predecessor of a node (`None` for the start node). -/
def ANode.parent : ANode → Option ANode
  | .mk _ _ _ _ _ p => p

instance : Inhabited ANode := ⟨.mk 0 0 0 0 0 none⟩

/-- Node construction (`Node.__init__`): `f` is computed as `g + h`. -/
def mkNode (x y : Int) (g h : Nat) (parent : Option ANode) : ANode :=
  .mk x y g h (g + h) parent

/-- Node comparison (`Node.__lt__`): by `f` only. -/
def nodeLT (a b : ANode) : Bool := decide (a.f < b.f)

/-- The loop body of CPython `heapq._siftdown`, recursing on explicit fuel
(structurally, so that the kernel can evaluate it).  `pos` strictly
decreases at every step, so fuel `pos` always suffices: when the fuel hits
`0` the position is `0` and the loop condition `startpos < pos` is false,
hence the fuel-exhausted branch coincides with the loop exit. -/
def siftdownAux : Nat → List ANode → Nat → Nat → ANode → List ANode
  | 0, heap, _, pos, newitem => heap.set pos newitem
  | fuel + 1, heap, startpos, pos, newitem =>
    if startpos < pos then
      let parentpos := (pos - 1) / 2
      let parent := heap.getD parentpos default
      if nodeLT newitem parent then
        siftdownAux fuel (heap.set pos parent) startpos parentpos newitem
      else
        heap.set pos newitem
    else
      heap.set pos newitem

/-- CPython `heapq._siftdown` (bubble the new item up towards the root).
`newitem` is the value read from `heap[pos]` before the loop starts. -/
def siftdownLoop (heap : List ANode) (startpos pos : Nat) (newitem : ANode) :
    List ANode :=
  siftdownAux pos heap startpos pos newitem

/-- CPython `heapq.heappush`: append, then sift the new last element up. -/
def heappush (heap : List ANode) (item : ANode) : List ANode :=
  siftdownLoop (heap ++ [item]) 0 heap.length item

/-- The loop of CPython `heapq._siftup` (Floyd's variant), recursing on
explicit fuel: walk down the tree moving the smaller child up, returning
the rewritten list and the final position of the hole.  The position
strictly increases and stays below the (invariant) list length, so fuel
`heap.length` always suffices: when the fuel runs out the loop condition
`2*pos+1 < heap.length` is already false. -/
def siftupAux : Nat → List ANode → Nat → List ANode × Nat
  | 0, heap, pos => (heap, pos)
  | fuel + 1, heap, pos =>
    if 2 * pos + 1 < heap.length then
      let cpos :=
        if 2 * pos + 2 < heap.length &&
            !(nodeLT (heap.getD (2 * pos + 1) default)
              (heap.getD (2 * pos + 2) default)) then
          2 * pos + 2
        else
          2 * pos + 1
      siftupAux fuel (heap.set pos (heap.getD cpos default)) cpos
    else
      (heap, pos)

/-- The `_siftup` descent loop, entered with fuel `heap.length`. -/
def siftupLoop (heap : List ANode) (pos : Nat) : List ANode × Nat :=
  siftupAux heap.length heap pos

/-- CPython `heapq._siftup`: read `newitem = heap[pos]`, run the Floyd
descent, then place `newitem` and bubble it up with `_siftdown`. -/
def siftupFn (heap : List ANode) (pos : Nat) : List ANode :=
  let newitem := heap.getD pos default
  let r := siftupLoop heap pos
  siftdownLoop r.1 pos r.2 newitem

/-- CPython `heapq.heappop`: pop the last element; if the heap is still
non-empty, take the root as the return value, move the last element to the
root and sift it down.  Returns `none` on an empty heap (Python raises). -/
def heappop (heap : List ANode) : Option (ANode × List ANode) :=
  match heap with
  | [] => none
  | a :: t =>
    match t with
    | [] => some (a, [])
    | _ :: _ =>
      let lastelt := (a :: t).getLastD default
      let rest := (a :: t).dropLast
      some (a, siftupFn (rest.set 0 lastelt) 0)

/-- The linear scan `for node in open_set: if node.x == ... and node.y == ...`
of the source: index of the first open-set entry with the given
coordinates. -/
def scanIdx (npos : Cell) : List ANode → Option Nat
  | [] => none
  | n :: rest =>
    if decide (n.x = npos.1) && decide (n.y = npos.2) then some 0
    else (scanIdx npos rest).map (· + 1)

/-- One neighbour step of the A* inner loop: skip closed coordinates,
otherwise either push a fresh node, or — when a node with the same
coordinates is already in the open list and the new `g` is strictly
smaller — mutate that node in place (`g`, `f`, `parent`), exactly as the
source does (without repairing the heap). -/
def processNeighbor (goal : Cell) (current : ANode) (closed : List Cell)
    (heap : List ANode) (npos : Cell) : List ANode :=
  if decide (npos ∈ closed) then
    heap
  else
    let tg := current.g + 1
    let nbr := mkNode npos.1 npos.2 tg (heuristic npos goal) (some current)
    match scanIdx npos heap with
    | none => heappush heap nbr
    | some i =>
      let ex := heap.getD i default
      if tg < ex.g then
        heap.set i (.mk ex.x ex.y tg ex.h (tg + ex.h) (some current))
      else
        heap

/-- Path reconstruction: walk `parent` links, collecting coordinates of
every node that has a parent, in start-to-goal order (the Python code
appends goal-first and reverses). -/
def reconstruct : ANode → List Cell
  | .mk x y _ _ _ p =>
    match p with
    | none => []
    | some q => reconstruct q ++ [(x, y)]

/-- Outcome of one `find_path_astar` call, instrumented with the number of
loop iterations (each pops one node) and whether some pop returned a node
whose `f` was not minimal among the open set at that moment. -/
structure SearchResult where
  path : List Cell
  pops : Nat
  minViolated : Bool

/-- The main `while open_set:` loop of `find_path_astar`, with explicit
fuel (`none` = fuel exhausted; the fuel used by `find_path_astar` is shown
below to always suffice). -/
def searchLoop (W H : Nat) (body : List Cell) (goal : Cell) :
    Nat → List ANode → List Cell → Nat → Bool → Option SearchResult
  | 0, _, _, _, _ => none
  | fuel + 1, heap, closed, pops, viol =>
    match heappop heap with
    | none => some ⟨[], pops, viol⟩
    | some (current, heap1) =>
      let viol1 := viol || heap1.any fun n => decide (n.f < current.f)
      if decide (current.x = goal.1) && decide (current.y = goal.2) then
        some ⟨reconstruct current, pops + 1, viol1⟩
      else
        let closed1 := (current.x, current.y) :: closed
        let heap2 := (get_neighbors W H body (current.x, current.y)).foldl
          (processNeighbor goal current closed1) heap1
        searchLoop W H body goal fuel heap2 closed1 (pops + 1) viol1

/-- Instrumented `find_path_astar`: start node `g = 0`,
`h = heuristic start goal`, pushed on an empty heap. -/
def astarSearch (W H : Nat) (body : List Cell) (start goal : Cell) :
    Option SearchResult :=
  let startNode := mkNode start.1 start.2 0 (heuristic start goal) none
  searchLoop W H body goal (W * H + 2) (heappush [] startNode) [] 0 false

/-- The source function `find_path_astar(start, goal)` (`body` is `self.snake`):
the returned path, `[]` when no path is found. -/
def find_path_astar (W H : Nat) (body : List Cell) (start goal : Cell) :
    List Cell :=
  match astarSearch W H body start goal with
  | some r => r.path
  | none => []

/-- The list of safe directions computed by `get_safe_direction`: the
resulting cell must be in bounds and not in the snake body (tail
included). -/
def safe_directions (W H : Nat) (snake : List Cell) : List Cell :=
  let head := snake.headD (0, 0)
  DIRECTIONS.filter fun d =>
    inBoundsB W H (head.1 + d.1, head.2 + d.2) &&
    !(decide ((head.1 + d.1, head.2 + d.2) ∈ snake))

/-- Fallback `get_safe_direction`: a random safe direction, or the current direction
if none is safe.  `random.choice` is modelled by the arbitrary index `k`
(taken modulo the number of choices). -/
def get_safe_direction (W H : Nat) (snake : List Cell) (dir : Cell) (k : Nat) :
    Cell :=
  let safe := safe_directions W H snake
  if safe.isEmpty then dir else safe.getD (k % safe.length) (0, 0)

/-- The direction update of `update_ai`: run A* from the head to the food;
if the path is empty fall back to `get_safe_direction`, otherwise steer
towards the first path cell. -/
def update_ai_direction (W H : Nat) (snake : List Cell) (food : Cell)
    (dir : Cell) (k : Nat) : Cell :=
  let head := snake.headD (0, 0)
  match find_path_astar W H snake head food with
  | [] => get_safe_direction W H snake dir k
  | next :: _ => (next.1 - head.1, next.2 - head.2)


/-! ### Auxiliary definitions used by the verification -/

/-- Coordinates of the nodes of a heap. -/
def coordsOf (heap : List ANode) : List Cell := heap.map fun n => (n.x, n.y)

/-- Invariant satisfied by every node the search ever places in the open
set: `h` is the Manhattan heuristic of its coordinates, `f = g + h`, the
parentless node is the start node with `g = 0`, and every other node was
created (or re-parented) as a valid neighbour of its parent with
`g = parent.g + 1`. -/
def goodNode (W H : Nat) (body : List Cell) (start goal : Cell) : ANode → Prop
  | .mk x y g h f p =>
    h = heuristic (x, y) goal ∧ f = g + h ∧
    match p with
    | none => (x, y) = start ∧ g = 0
    | some q => goodNode W H body start goal q ∧
        (x, y) ∈ get_neighbors W H body (q.x, q.y) ∧ g = q.g + 1

/-- A step of the search adjacency: `b` is a valid neighbour of `a`. -/
def searchStep (W H : Nat) (body : List Cell) (a b : Cell) : Prop :=
  b ∈ get_neighbors W H body a

/-- Reachability of the claims: a chain of 4-adjacent, in-bounds cells,
each avoiding the occupied set `body[:-1]`. -/
def reachableFrom (W H : Nat) (body : List Cell) (a b : Cell) : Prop :=
  Relation.ReflTransGen (searchStep W H body) a b

/-- Invariant carried by the open heap and the closed list through the
main search loop. -/
structure SearchInv (W H : Nat) (body : List Cell) (start goal : Cell)
    (heap : List ANode) (closed : List Cell) : Prop where
  good : ∀ n ∈ heap, goodNode W H body start goal n
  fresh : ∀ n ∈ heap, (n.x, n.y) ∉ closed
  hnodup : (coordsOf heap).Nodup
  cnodup : closed.Nodup
  cgood : ∀ c ∈ closed, c = start ∨ (inBoundsB W H c = true ∧ c ∉ body.dropLast)
  cgoal : goal ∉ closed

/-- The finite set of in-bounds cells of a `W × H` grid. -/
def boundedCells (W H : Nat) : Finset Cell :=
  (Finset.range W ×ˢ Finset.range H).image fun p => ((p.1 : Int), (p.2 : Int))

/-- Propositional form of the bounds check. -/
def inBoundsP (W H : Nat) (c : Cell) : Prop :=
  0 ≤ c.1 ∧ c.1 < (W : Int) ∧ 0 ≤ c.2 ∧ c.2 < (H : Int)

instance (W H : Nat) (c : Cell) : Decidable (inBoundsP W H c) := by
  unfold inBoundsP
  infer_instance

/-- A sequence of engine ticks: each tick supplies the snake body, the
food cell and the fallback's random index, and the direction is updated by
`update_ai_direction` (the direction handed to the shell each tick). -/
def runTicks (W H : Nat) (inputs : List (List Cell × Cell × Nat)) (dir : Cell) :
    Cell :=
  inputs.foldl (fun d inp => update_ai_direction W H inp.1 inp.2.1 d inp.2.2) dir

/-- Decidable rendition of the claims' notion of a valid path: a sequence
of cells, each 4-adjacent to its predecessor (the first adjacent to the
start cell `a`), each in bounds and avoiding the occupied set `body[:-1]`,
ending at `goal`. -/
def validSeq (W H : Nat) (body : List Cell) : Cell → List Cell → Cell → Bool
  | a, [], goal => decide (a = goal)
  | a, c :: rest, goal =>
    (DIRECTIONS.any fun d => decide (c = (a.1 + d.1, a.2 + d.2))) &&
    inBoundsB W H c && !(decide (c ∈ body.dropLast)) &&
    validSeq W H body c rest goal


open List

/-! ### Basic lemmas about `List.set` and permutations -/

theorem set_self_eq {α : Type _} (l : List α) (i : Nat) (h : i < l.length) :
    l.set i (l[i]) = l := by
  apply List.ext_getElem
  · simp
  · intro n h1 h2
    rw [List.getElem_set]
    split
    · subst n; rfl
    · rfl

theorem cons_set_perm {α : Type _} {l : List α} {i : Nat} (h : i < l.length) (a : α) :
    l[i] :: l.set i a ~ a :: l := by
  rw [List.set_eq_take_cons_drop a h]
  conv_rhs => rw [← List.take_append_drop i l, ← List.getElem_cons_drop l i h]
  calc l[i] :: (List.take i l ++ a :: List.drop (i + 1) l)
      ~ l[i] :: (a :: (List.take i l ++ List.drop (i + 1) l)) :=
        List.Perm.cons _ List.perm_middle
    _ ~ a :: (l[i] :: (List.take i l ++ List.drop (i + 1) l)) :=
        List.Perm.swap _ _ _
    _ ~ a :: (List.take i l ++ l[i] :: List.drop (i + 1) l) :=
        List.Perm.cons _ List.perm_middle.symm

theorem set_set_perm {α : Type _} {l : List α} {i j : Nat} (hij : i ≠ j)
    (hi : i < l.length) (hj : j < l.length) (x : α) :
    (l.set i (l[j])).set j x ~ l.set i x := by
  have hj' : j < (l.set i (l[j])).length := by simpa using hj
  have hAj : (l.set i (l[j]))[j] = l[j] := by
    rw [List.getElem_set]
    split
    · exact absurd (by assumption) hij
    · rfl
  have pB := cons_set_perm hj' x
  rw [hAj] at pB
  have pA := cons_set_perm hi (l[j])
  have pC := cons_set_perm hi x
  have chain : l[j] :: l[i] :: (l.set i (l[j])).set j x ~
      l[j] :: l[i] :: l.set i x := by
    calc l[j] :: l[i] :: (l.set i (l[j])).set j x
        ~ l[i] :: l[j] :: (l.set i (l[j])).set j x := List.Perm.swap _ _ _
      _ ~ l[i] :: (x :: l.set i (l[j])) := List.Perm.cons _ pB
      _ ~ x :: l[i] :: l.set i (l[j]) := List.Perm.swap _ _ _
      _ ~ x :: l[j] :: l := List.Perm.cons _ pA
      _ ~ l[j] :: x :: l := List.Perm.swap _ _ _
      _ ~ l[j] :: l[i] :: l.set i x := List.Perm.cons _ pC.symm
  exact (chain.cons_inv).cons_inv

/-! ### Permutation facts for the heap operations -/

theorem siftdownAux_perm :
    ∀ (fuel : Nat) (heap : List ANode) (sp pos : Nat) (it : ANode),
      pos < heap.length → siftdownAux fuel heap sp pos it ~ heap.set pos it
  | 0, heap, sp, pos, it, _ => by
    simp [siftdownAux]
  | fuel + 1, heap, sp, pos, it, hpos => by
    unfold siftdownAux
    by_cases hsp : sp < pos
    · simp only [if_pos hsp]
      have hpp : (pos - 1) / 2 < pos := by omega
      have hpplen : (pos - 1) / 2 < heap.length := lt_trans hpp hpos
      rw [List.getD_eq_getElem heap default hpplen]
      by_cases hlt : nodeLT it (heap[(pos - 1) / 2]) = true
      · simp only [hlt, if_true]
        have ih := siftdownAux_perm fuel (heap.set pos (heap[(pos - 1) / 2]))
          sp ((pos - 1) / 2) it (by simpa using hpplen)
        exact ih.trans (set_set_perm (Nat.ne_of_gt hpp) hpos hpplen it)
      · simp only [hlt, if_false]
        exact List.Perm.refl _
    · simp only [if_neg hsp]
      exact List.Perm.refl _

theorem heappush_perm (heap : List ANode) (it : ANode) :
    heappush heap it ~ it :: heap := by
  unfold heappush siftdownLoop
  have hlen : heap.length < (heap ++ [it]).length := by simp
  refine (siftdownAux_perm _ _ _ _ _ hlen).trans ?_
  have he : (heap ++ [it])[heap.length] = it :=
    List.getElem_concat_length heap it heap.length rfl hlen
  calc (heap ++ [it]).set heap.length it
      = (heap ++ [it]).set heap.length ((heap ++ [it])[heap.length]) := by rw [he]
    _ = heap ++ [it] := set_self_eq _ _ hlen
    _ ~ it :: heap := List.perm_append_singleton it heap

theorem siftupAux_spec :
    ∀ (fuel : Nat) (heap : List ANode) (pos : Nat), pos < heap.length →
      (siftupAux fuel heap pos).1.length = heap.length ∧
      (siftupAux fuel heap pos).2 < heap.length ∧
      ∀ x, (siftupAux fuel heap pos).1.set (siftupAux fuel heap pos).2 x ~ heap.set pos x
  | 0, heap, pos, hpos => by
    exact ⟨rfl, hpos, fun x => List.Perm.refl _⟩
  | fuel + 1, heap, pos, hpos => by
    unfold siftupAux
    by_cases hc : 2 * pos + 1 < heap.length
    · simp only [if_pos hc]
      set cpos := if 2 * pos + 2 < heap.length &&
          !(nodeLT (heap.getD (2 * pos + 1) default)
            (heap.getD (2 * pos + 2) default)) then 2 * pos + 2 else 2 * pos + 1
        with hcposdef
      have hcpos : cpos < heap.length := by
        rw [hcposdef]
        split
        · next hb =>
          have := (Bool.and_eq_true _ _).mp hb
          exact of_decide_eq_true this.1
        · exact hc
      have hne : pos ≠ cpos := by
        have : pos < cpos := by
          rw [hcposdef]; split <;> omega
        omega
      rw [List.getD_eq_getElem heap default hcpos]
      have hlen2 : cpos < (heap.set pos (heap[cpos])).length := by simpa using hcpos
      obtain ⟨ihlen, ihpos, ihperm⟩ :=
        siftupAux_spec fuel (heap.set pos (heap[cpos])) cpos hlen2
      refine ⟨by simpa using ihlen, by simpa using ihpos, fun x => ?_⟩
      exact (ihperm x).trans (set_set_perm hne hpos hcpos x)
    · simp only [if_neg hc]
      exact ⟨trivial, hpos, fun x => List.Perm.refl _⟩

theorem siftupFn_perm (heap : List ANode) (pos : Nat) (hpos : pos < heap.length) :
    siftupFn heap pos ~ heap := by
  unfold siftupFn siftupLoop siftdownLoop
  obtain ⟨hlen, hlt, hperm⟩ := siftupAux_spec heap.length heap pos hpos
  rw [List.getD_eq_getElem heap default hpos]
  refine (siftdownAux_perm _ _ _ _ _ (by rw [hlen]; exact hlt)).trans ?_
  exact (hperm (heap[pos])).trans (by rw [set_self_eq _ _ hpos])

theorem getLastD_eq_getLast {α : Type _} :
    ∀ (l : List α) (d : α) (h : l ≠ []), l.getLastD d = l.getLast h
  | [a], _, _ => rfl
  | a :: b :: t, d, _ => by
    rw [List.getLastD_cons, getLastD_eq_getLast (b :: t) a (by simp),
      List.getLast_cons (by simp : (b : α) :: t ≠ [])]

theorem heappop_perm {heap rest : List ANode} {a : ANode}
    (h : heappop heap = some (a, rest)) : a :: rest ~ heap := by
  match heap with
  | [] => exact absurd h (by simp [heappop])
  | [x] =>
    have h' : (some (x, ([] : List ANode)) : Option (ANode × List ANode)) =
        some (a, rest) := h
    injection h' with hpair
    injection hpair with hx hr
    subst hx
    subst hr
    exact List.Perm.refl _
  | x :: y :: t =>
    have h' : (some (x, siftupFn (((x :: y :: t).dropLast).set 0
        ((x :: y :: t).getLastD default)) 0) : Option (ANode × List ANode)) =
        some (a, rest) := h
    injection h' with hpair
    injection hpair with hx hrest
    subst hx
    subst hrest
    have hne : (y :: t : List ANode) ≠ [] := by simp
    have hdl : (x :: y :: t).dropLast = x :: (y :: t).dropLast := List.dropLast_cons₂
    have hld : (x :: y :: t).getLastD default = (y :: t).getLast hne := by
      rw [List.getLastD_cons, getLastD_eq_getLast (y :: t) x hne]
    have hset : ((x :: y :: t).dropLast).set 0 ((x :: y :: t).getLastD default) =
        (y :: t).getLast hne :: (y :: t).dropLast := by
      rw [hdl, hld, List.set_cons_zero]
    have hperm : siftupFn (((x :: y :: t).dropLast).set 0
        ((x :: y :: t).getLastD default)) 0 ~
        (y :: t).getLast hne :: (y :: t).dropLast := by
      rw [hset]
      exact siftupFn_perm _ 0 (by simp)
    have htail : (y :: t).getLast hne :: (y :: t).dropLast ~ y :: t := by
      have hsplit := List.dropLast_append_getLast hne
      calc (y :: t).getLast hne :: (y :: t).dropLast
          ~ (y :: t).dropLast ++ [(y :: t).getLast hne] :=
            (List.perm_append_singleton _ _).symm
        _ = y :: t := hsplit
    exact List.Perm.cons x (hperm.trans htail)

/-! ### Derived facts about the heap operations -/

theorem mem_heappush {heap : List ANode} {it n : ANode}
    (h : n ∈ heappush heap it) : n = it ∨ n ∈ heap := by
  have := (heappush_perm heap it).mem_iff.mp h
  simpa using this

theorem heappop_mem {heap rest : List ANode} {a : ANode}
    (h : heappop heap = some (a, rest)) : a ∈ heap :=
  (heappop_perm h).mem_iff.mp (List.mem_cons_self a rest)

theorem heappop_subset {heap rest : List ANode} {a n : ANode}
    (h : heappop heap = some (a, rest)) (hn : n ∈ rest) : n ∈ heap :=
  (heappop_perm h).mem_iff.mp (List.mem_cons_of_mem a hn)

theorem heappop_coords_perm {heap rest : List ANode} {a : ANode}
    (h : heappop heap = some (a, rest)) :
    (a.x, a.y) :: coordsOf rest ~ coordsOf heap := by
  have := List.Perm.map (fun n : ANode => (n.x, n.y)) (heappop_perm h)
  simpa [coordsOf] using this

theorem heappush_coords_perm (heap : List ANode) (it : ANode) :
    coordsOf (heappush heap it) ~ (it.x, it.y) :: coordsOf heap := by
  have := List.Perm.map (fun n : ANode => (n.x, n.y)) (heappush_perm heap it)
  simpa [coordsOf] using this

theorem scanIdx_none {npos : Cell} :
    ∀ {heap : List ANode}, scanIdx npos heap = none →
      ∀ n ∈ heap, (n.x, n.y) ≠ npos
  | [], _, n, hn => absurd hn (by simp)
  | m :: rest, h, n, hn => by
    unfold scanIdx at h
    by_cases hm : (decide (m.x = npos.1) && decide (m.y = npos.2)) = true
    · rw [if_pos hm] at h
      exact absurd h (by simp)
    · rw [if_neg hm] at h
      rcases List.mem_cons.mp hn with rfl | hn'
      · intro hcontra
        apply hm
        have hx : n.x = npos.1 := congrArg Prod.fst hcontra
        have hy : n.y = npos.2 := congrArg Prod.snd hcontra
        simp [hx, hy]
      · exact scanIdx_none (by simpa using h) n hn'

theorem scanIdx_some {npos : Cell} :
    ∀ {heap : List ANode} {i : Nat}, scanIdx npos heap = some i →
      ∃ hlt : i < heap.length, (heap[i].x, heap[i].y) = npos
  | [], i, h => absurd h (by simp [scanIdx])
  | m :: rest, i, h => by
    unfold scanIdx at h
    by_cases hm : (decide (m.x = npos.1) && decide (m.y = npos.2)) = true
    · rw [if_pos hm] at h
      have hi : i = 0 := (Option.some.inj h).symm
      subst hi
      refine ⟨by simp, ?_⟩
      obtain ⟨h1, h2⟩ := Bool.and_eq_true _ _ |>.mp hm
      have hx := of_decide_eq_true h1
      have hy := of_decide_eq_true h2
      simp only [List.getElem_cons_zero]
      rw [hx, hy]
    · rw [if_neg hm] at h
      match hrec : scanIdx npos rest with
      | none => rw [hrec] at h; exact absurd h (by simp)
      | some j =>
        rw [hrec] at h
        have hij : i = j + 1 := (Option.some.inj (by simpa using h)).symm
        subst hij
        obtain ⟨hlt, hco⟩ := scanIdx_some hrec
        exact ⟨by simpa using Nat.succ_lt_succ hlt, by simpa using hco⟩

/-! ### Characterisation of `get_neighbors` and cell validity -/

theorem mem_get_neighbors {W H : Nat} {body : List Cell} {pos c : Cell} :
    c ∈ get_neighbors W H body pos ↔
      (∃ d ∈ DIRECTIONS, c = (pos.1 + d.1, pos.2 + d.2)) ∧
        inBoundsB W H c = true ∧ c ∉ body.dropLast := by
  unfold get_neighbors
  rw [List.mem_filter]
  simp only [List.mem_map, Bool.and_eq_true, Bool.not_eq_true', decide_eq_false_iff_not]
  constructor
  · rintro ⟨⟨d, hd, rfl⟩, hb, hfree⟩
    exact ⟨⟨d, hd, rfl⟩, hb, hfree⟩
  · rintro ⟨⟨d, hd, rfl⟩, hb, hfree⟩
    exact ⟨⟨d, hd, rfl⟩, hb, hfree⟩

theorem get_neighbors_free {W H : Nat} {body : List Cell} {pos c : Cell}
    (h : c ∈ get_neighbors W H body pos) :
    inBoundsB W H c = true ∧ c ∉ body.dropLast :=
  (mem_get_neighbors.mp h).2

/-! ### The parent-chain invariant of search nodes -/

theorem goodNode_start_or_free {W H : Nat} {body : List Cell} {start goal : Cell} :
    ∀ {n : ANode}, goodNode W H body start goal n →
      (n.x, n.y) = start ∨
        (inBoundsB W H (n.x, n.y) = true ∧ (n.x, n.y) ∉ body.dropLast)
  | .mk x y g h f none, hg => Or.inl hg.2.2.1
  | .mk x y g h f (some q), hg => Or.inr (get_neighbors_free hg.2.2.2.1)

theorem reconstruct_cells {W H : Nat} {body : List Cell} {start goal : Cell} :
    ∀ n : ANode, goodNode W H body start goal n →
      ∀ c ∈ reconstruct n, inBoundsB W H c = true ∧ c ∉ body.dropLast
  | .mk x y g h f none, _, c, hc => absurd hc (by simp [reconstruct])
  | .mk x y g h f (some q), hg, c, hc => by
    obtain ⟨hh, hf, hq, hmem, hgg⟩ := hg
    have hc2 : c ∈ reconstruct q ∨ c = (x, y) := by simpa [reconstruct] using hc
    rcases hc2 with hc' | rfl
    · exact reconstruct_cells q hq c hc'
    · exact get_neighbors_free hmem

theorem reconstruct_eq_nil_iff :
    ∀ {n : ANode}, reconstruct n = [] ↔ n.parent = none
  | .mk x y g h f none => by simp [reconstruct, ANode.parent]
  | .mk x y g h f (some q) => by simp [reconstruct, ANode.parent]

theorem reconstruct_first {W H : Nat} {body : List Cell} {start goal : Cell} :
    ∀ n : ANode, goodNode W H body start goal n →
      reconstruct n = [] ∨
        ∃ c rest2, reconstruct n = c :: rest2 ∧ c ∈ get_neighbors W H body start
  | .mk x y g h f none, _ => Or.inl (by simp [reconstruct])
  | .mk x y g h f (some q), hg => by
    obtain ⟨hh, hf, hq, hmem, hgg⟩ := hg
    right
    rcases reconstruct_first q hq with hq0 | ⟨c, r2, hcr, hcn⟩
    · have hroot : q.parent = none := reconstruct_eq_nil_iff.mp hq0
      have hco : (q.x, q.y) = start := by
        match q, hq, hroot with
        | .mk qx qy qg qh qf none, hq', _ => exact hq'.2.2.1
      refine ⟨(x, y), [], ?_, ?_⟩
      · simp [reconstruct, hq0]
      · rw [← hco]
        exact hmem
    · refine ⟨c, r2 ++ [(x, y)], ?_, hcn⟩
      simp [reconstruct, hcr]

theorem reconstruct_reach {W H : Nat} {body : List Cell} {start goal : Cell} :
    ∀ n : ANode, goodNode W H body start goal n →
      reachableFrom W H body start (n.x, n.y)
  | .mk x y g h f none, hg => by
    have hco : (x, y) = start := hg.2.2.1
    simp only [ANode.x, ANode.y]
    rw [hco]
    exact Relation.ReflTransGen.refl
  | .mk x y g h f (some q), hg => by
    obtain ⟨hh, hf, hq, hmem, hgg⟩ := hg
    have hr := reconstruct_reach q hq
    exact Relation.ReflTransGen.tail hr hmem

/-! ### The search-loop invariant -/

theorem goodNode_h {W H : Nat} {body : List Cell} {start goal : Cell} :
    ∀ {n : ANode}, goodNode W H body start goal n →
      n.h = heuristic (n.x, n.y) goal
  | .mk _ _ _ _ _ none, hg => hg.1
  | .mk _ _ _ _ _ (some _), hg => hg.1

theorem mem_coordsOf {heap : List ANode} {n : ANode} (h : n ∈ heap) :
    (n.x, n.y) ∈ coordsOf heap := by
  exact List.mem_map.mpr ⟨n, h, rfl⟩

theorem coordsOf_set (heap : List ANode) (i : Nat) (a : ANode) :
    coordsOf (heap.set i a) = (coordsOf heap).set i (a.x, a.y) := by
  unfold coordsOf
  rw [List.map_set]

theorem processNeighbor_closed {goal npos : Cell} {current : ANode}
    {closed : List Cell} {heap : List ANode} (h : npos ∈ closed) :
    processNeighbor goal current closed heap npos = heap := by
  unfold processNeighbor
  rw [decide_eq_true h]
  rfl

theorem processNeighbor_push {goal npos : Cell} {current : ANode}
    {closed : List Cell} {heap : List ANode} (h : npos ∉ closed)
    (hscan : scanIdx npos heap = none) :
    processNeighbor goal current closed heap npos =
      heappush heap (mkNode npos.1 npos.2 (current.g + 1)
        (heuristic npos goal) (some current)) := by
  unfold processNeighbor
  rw [decide_eq_false h, hscan]
  rfl

theorem processNeighbor_update {goal npos : Cell} {current : ANode}
    {closed : List Cell} {heap : List ANode} {i : Nat} (h : npos ∉ closed)
    (hscan : scanIdx npos heap = some i) :
    processNeighbor goal current closed heap npos =
      if current.g + 1 < (heap.getD i default).g then
        heap.set i (.mk (heap.getD i default).x (heap.getD i default).y
          (current.g + 1) (heap.getD i default).h
          (current.g + 1 + (heap.getD i default).h) (some current))
      else heap := by
  unfold processNeighbor
  rw [decide_eq_false h, hscan]
  rfl

theorem processNeighbor_inv {W H : Nat} {body : List Cell} {start goal : Cell}
    {current : ANode} {heap : List ANode} {closed : List Cell} {npos : Cell}
    (hcur : goodNode W H body start goal current)
    (hinv : SearchInv W H body start goal heap closed)
    (hnpos : npos ∈ get_neighbors W H body (current.x, current.y)) :
    SearchInv W H body start goal
      (processNeighbor goal current closed heap npos) closed := by
  by_cases hcl : npos ∈ closed
  · rw [processNeighbor_closed hcl]
    exact hinv
  cases hscan : scanIdx npos heap with
  | none =>
    rw [processNeighbor_push hcl hscan]
    have hfreshco : ∀ n ∈ heap, (n.x, n.y) ≠ npos := scanIdx_none hscan
    set nbr := mkNode npos.1 npos.2 (current.g + 1)
      (heuristic npos goal) (some current) with hnbr
    have hnbrgood : goodNode W H body start goal nbr := by
      rw [hnbr]
      exact ⟨rfl, rfl, hcur, hnpos, rfl⟩
    constructor
    · intro n hn
      rcases mem_heappush hn with rfl | hn'
      · exact hnbrgood
      · exact hinv.good n hn'
    · intro n hn
      rcases mem_heappush hn with rfl | hn'
      · exact hcl
      · exact hinv.fresh n hn'
    · have hperm := heappush_coords_perm heap nbr
      have hnotin : (nbr.x, nbr.y) ∉ coordsOf heap := by
        intro hmem
        obtain ⟨m, hm, hco⟩ := List.mem_map.mp hmem
        exact hfreshco m hm (by simpa [hnbr, mkNode, ANode.x, ANode.y] using hco)
      exact hperm.symm.nodup (List.nodup_cons.mpr ⟨hnotin, hinv.hnodup⟩)
    · exact hinv.cnodup
    · exact hinv.cgood
    · exact hinv.cgoal
  | some i =>
    obtain ⟨hlt, hco⟩ := scanIdx_some hscan
    rw [processNeighbor_update hcl hscan,
      List.getD_eq_getElem heap default hlt]
    by_cases htg : current.g + 1 < heap[i].g
    · rw [if_pos htg]
      set ex := heap[i] with hex
      set newN : ANode := .mk ex.x ex.y (current.g + 1) ex.h
        (current.g + 1 + ex.h) (some current) with hnewN
      have hexgood : goodNode W H body start goal ex :=
        hinv.good ex (List.getElem_mem hlt)
      have hexh : ex.h = heuristic (ex.x, ex.y) goal := goodNode_h hexgood
      have hnewco : (newN.x, newN.y) = npos := by
        rw [hnewN]
        exact hco
      have hnewgood : goodNode W H body start goal newN := by
        rw [hnewN]
        refine ⟨?_, rfl, hcur, ?_, rfl⟩
        · rw [hexh]
        · rw [show ((ex.x, ex.y) : Cell) = npos from hco]
          exact hnpos
      have hmemset : ∀ n ∈ heap.set i newN, n = newN ∨ n ∈ heap := by
        intro n hn
        have h1 : n ∈ heap[i] :: heap.set i newN := List.mem_cons_of_mem _ hn
        have h2 := (cons_set_perm hlt newN).mem_iff.mp h1
        simpa using h2
      have hcoords : coordsOf (heap.set i newN) = coordsOf heap := by
        rw [coordsOf_set, hnewco]
        have hilen : i < (coordsOf heap).length := by
          simpa [coordsOf] using hlt
        have hcoi : ((coordsOf heap)[i]) = npos := by
          simp only [coordsOf]
          rw [List.getElem_map]
          exact hco
        rw [← hcoi, set_self_eq _ _ hilen]
      constructor
      · intro n hn
        rcases hmemset n hn with rfl | hn'
        · exact hnewgood
        · exact hinv.good n hn'
      · intro n hn
        rcases hmemset n hn with rfl | hn'
        · rw [hnewco]; exact hcl
        · exact hinv.fresh n hn'
      · rw [hcoords]; exact hinv.hnodup
      · exact hinv.cnodup
      · exact hinv.cgood
      · exact hinv.cgoal
    · rw [if_neg htg]
      exact hinv

theorem foldl_processNeighbor_inv {W H : Nat} {body : List Cell} {start goal : Cell}
    {current : ANode} {closed : List Cell} :
    ∀ (nbrs : List Cell) (heap : List ANode),
      (∀ c ∈ nbrs, c ∈ get_neighbors W H body (current.x, current.y)) →
      goodNode W H body start goal current →
      SearchInv W H body start goal heap closed →
      SearchInv W H body start goal
        (nbrs.foldl (processNeighbor goal current closed) heap) closed
  | [], heap, _, _, hinv => hinv
  | c :: rest, heap, hall, hcur, hinv => by
    rw [List.foldl_cons]
    exact foldl_processNeighbor_inv rest _
      (fun d hd => hall d (List.mem_cons_of_mem c hd)) hcur
      (processNeighbor_inv hcur hinv (hall c (List.mem_cons_self c rest)))

theorem pop_step_inv {W H : Nat} {body : List Cell} {start goal : Cell}
    {heap heap1 : List ANode} {closed : List Cell} {current : ANode}
    (hinv : SearchInv W H body start goal heap closed)
    (hpop : heappop heap = some (current, heap1))
    (hgoal : ((current.x, current.y) : Cell) ≠ goal) :
    SearchInv W H body start goal
      ((get_neighbors W H body (current.x, current.y)).foldl
        (processNeighbor goal current ((current.x, current.y) :: closed)) heap1)
      ((current.x, current.y) :: closed) := by
  have hcur : goodNode W H body start goal current :=
    hinv.good current (heappop_mem hpop)
  have hcperm := heappop_coords_perm hpop
  have hnodup1 : ((current.x, current.y) :: coordsOf heap1).Nodup :=
    hcperm.symm.nodup hinv.hnodup
  have hccur : (current.x, current.y) ∉ coordsOf heap1 :=
    (List.nodup_cons.mp hnodup1).1
  have hinv1 : SearchInv W H body start goal heap1
      ((current.x, current.y) :: closed) := by
    constructor
    · intro n hn
      exact hinv.good n (heappop_subset hpop hn)
    · intro n hn
      intro hmem
      rcases List.mem_cons.mp hmem with heq | hmem'
      · exact hccur (heq ▸ mem_coordsOf hn)
      · exact hinv.fresh n (heappop_subset hpop hn) hmem'
    · exact (List.nodup_cons.mp hnodup1).2
    · exact List.nodup_cons.mpr ⟨hinv.fresh current (heappop_mem hpop), hinv.cnodup⟩
    · intro c hc
      rcases List.mem_cons.mp hc with rfl | hc'
      · exact goodNode_start_or_free hcur
      · exact hinv.cgood c hc'
    · intro hc
      rcases List.mem_cons.mp hc with hgc | hc'
      · exact hgoal hgc.symm
      · exact hinv.cgoal hc'
  exact foldl_processNeighbor_inv _ heap1 (fun c hc => hc) hcur hinv1

/-! ### Unfolding equations for `searchLoop` -/

theorem searchLoop_zero {W H : Nat} {body : List Cell} {goal : Cell}
    {heap : List ANode} {closed : List Cell} {pops : Nat} {viol : Bool} :
    searchLoop W H body goal 0 heap closed pops viol = none := rfl

theorem searchLoop_emptyheap {W H : Nat} {body : List Cell} {goal : Cell}
    {heap : List ANode} {closed : List Cell} {pops fuel : Nat} {viol : Bool}
    (h : heappop heap = none) :
    searchLoop W H body goal (fuel + 1) heap closed pops viol =
      some ⟨[], pops, viol⟩ := by
  unfold searchLoop
  rw [h]

theorem searchLoop_goal {W H : Nat} {body : List Cell} {goal : Cell}
    {heap heap1 : List ANode} {closed : List Cell} {pops fuel : Nat}
    {viol : Bool} {current : ANode}
    (hpop : heappop heap = some (current, heap1))
    (hg : (decide (current.x = goal.1) && decide (current.y = goal.2)) = true) :
    searchLoop W H body goal (fuel + 1) heap closed pops viol =
      some ⟨reconstruct current, pops + 1,
        viol || heap1.any fun n => decide (n.f < current.f)⟩ := by
  unfold searchLoop
  rw [hpop]
  simp only [hg, if_true]

theorem searchLoop_step {W H : Nat} {body : List Cell} {goal : Cell}
    {heap heap1 : List ANode} {closed : List Cell} {pops fuel : Nat}
    {viol : Bool} {current : ANode}
    (hpop : heappop heap = some (current, heap1))
    (hg : (decide (current.x = goal.1) && decide (current.y = goal.2)) = false) :
    searchLoop W H body goal (fuel + 1) heap closed pops viol =
      searchLoop W H body goal fuel
        ((get_neighbors W H body (current.x, current.y)).foldl
          (processNeighbor goal current ((current.x, current.y) :: closed)) heap1)
        ((current.x, current.y) :: closed) (pops + 1)
        (viol || heap1.any fun n => decide (n.f < current.f)) := by
  simp only [searchLoop]
  rw [hpop]
  simp only [hg, Bool.false_eq_true, if_false]

/-! ### Soundness of the search loop -/

theorem goal_check_eq {current : ANode} {goal : Cell}
    (hg : (decide (current.x = goal.1) && decide (current.y = goal.2)) = true) :
    ((current.x, current.y) : Cell) = goal := by
  obtain ⟨h1, h2⟩ := (Bool.and_eq_true _ _).mp hg
  have hx := of_decide_eq_true h1
  have hy := of_decide_eq_true h2
  rw [hx, hy]

theorem goal_check_ne {current : ANode} {goal : Cell}
    (hg : (decide (current.x = goal.1) && decide (current.y = goal.2)) = false) :
    ((current.x, current.y) : Cell) ≠ goal := by
  intro hco
  have hx : current.x = goal.1 := congrArg Prod.fst hco
  have hy : current.y = goal.2 := congrArg Prod.snd hco
  rw [hx, hy] at hg
  simp at hg

theorem searchLoop_path_spec {W H : Nat} {body : List Cell} {start goal : Cell} :
    ∀ (fuel : Nat) (heap : List ANode) (closed : List Cell) (pops : Nat)
      (viol : Bool) (r : SearchResult),
      SearchInv W H body start goal heap closed →
      searchLoop W H body goal fuel heap closed pops viol = some r →
      r.path = [] ∨ ∃ n : ANode, goodNode W H body start goal n ∧
        ((n.x, n.y) : Cell) = goal ∧ r.path = reconstruct n
  | 0, heap, closed, pops, viol, r, _, hr => by
    rw [searchLoop_zero] at hr
    exact absurd hr (by simp)
  | fuel + 1, heap, closed, pops, viol, r, hinv, hr => by
    cases hpop : heappop heap with
    | none =>
      rw [searchLoop_emptyheap hpop] at hr
      left
      have := Option.some.inj hr
      rw [← this]
    | some pr =>
      obtain ⟨current, heap1⟩ := pr
      cases hgb : (decide (current.x = goal.1) && decide (current.y = goal.2)) with
      | true =>
        rw [searchLoop_goal hpop hgb] at hr
        right
        refine ⟨current, hinv.good current (heappop_mem hpop),
          goal_check_eq hgb, ?_⟩
        have := Option.some.inj hr
        rw [← this]
      | false =>
        rw [searchLoop_step hpop hgb] at hr
        exact searchLoop_path_spec fuel _ _ _ _ r
          (pop_step_inv hinv hpop (goal_check_ne hgb)) hr

/-! ### Termination and the bound on node expansions -/

theorem closed_length_le {W H : Nat} {body : List Cell} {start goal : Cell}
    {heap : List ANode} {closed : List Cell} {capSet : Finset Cell}
    (hinv : SearchInv W H body start goal heap closed)
    (hcap : ∀ c, c = start ∨ (inBoundsB W H c = true ∧ c ∉ body.dropLast) →
      c ≠ goal → c ∈ capSet) :
    closed.length ≤ capSet.card := by
  have hsub : closed.toFinset ⊆ capSet := by
    intro c hc
    have hc' : c ∈ closed := List.mem_toFinset.mp hc
    have hne : c ≠ goal := by
      intro hcg
      exact hinv.cgoal (hcg ▸ hc')
    exact hcap c (hinv.cgood c hc') hne
  calc closed.length = closed.toFinset.card :=
        (List.toFinset_card_of_nodup hinv.cnodup).symm
    _ ≤ capSet.card := Finset.card_le_card hsub

theorem searchLoop_total_spec {W H : Nat} {body : List Cell} {start goal : Cell}
    {capSet : Finset Cell}
    (hcap : ∀ c, c = start ∨ (inBoundsB W H c = true ∧ c ∉ body.dropLast) →
      c ≠ goal → c ∈ capSet) :
    ∀ (fuel : Nat) (heap : List ANode) (closed : List Cell) (pops : Nat)
      (viol : Bool),
      SearchInv W H body start goal heap closed →
      capSet.card + 1 ≤ closed.length + fuel →
      ∃ r, searchLoop W H body goal fuel heap closed pops viol = some r ∧
        r.pops ≤ pops + (capSet.card - closed.length) + 1
  | 0, heap, closed, pops, viol, hinv, hfuel => by
    have := closed_length_le hinv hcap
    omega
  | fuel + 1, heap, closed, pops, viol, hinv, hfuel => by
    cases hpop : heappop heap with
    | none =>
      refine ⟨⟨[], pops, viol⟩, searchLoop_emptyheap hpop, ?_⟩
      simp only [SearchResult.mk.injEq]
      omega
    | some pr =>
      obtain ⟨current, heap1⟩ := pr
      cases hgb : (decide (current.x = goal.1) && decide (current.y = goal.2)) with
      | true =>
        refine ⟨⟨reconstruct current, pops + 1,
          viol || heap1.any fun n => decide (n.f < current.f)⟩,
          searchLoop_goal hpop hgb, ?_⟩
        show pops + 1 ≤ pops + (capSet.card - closed.length) + 1
        omega
      | false =>
        have hinv2 := pop_step_inv hinv hpop (goal_check_ne hgb)
        have hlen2 : ((current.x, current.y) :: closed).length ≤ capSet.card :=
          closed_length_le hinv2 hcap
        have hlen2' : closed.length + 1 ≤ capSet.card := by
          simpa using hlen2
        obtain ⟨r, heq, hb⟩ := searchLoop_total_spec hcap fuel _ _ (pops + 1)
          (viol || heap1.any fun n => decide (n.f < current.f)) hinv2
          (by simp; omega)
        refine ⟨r, ?_, ?_⟩
        · rw [searchLoop_step hpop hgb]
          exact heq
        · have : ((current.x, current.y) :: closed).length = closed.length + 1 := by
            simp
          rw [this] at hb
          omega

/-! ### The initial state of the search -/

theorem goodNode_startNode (W H : Nat) (body : List Cell) (start goal : Cell) :
    goodNode W H body start goal
      (mkNode start.1 start.2 0 (heuristic start goal) none) :=
  ⟨rfl, rfl, rfl, rfl⟩

theorem initial_inv (W H : Nat) (body : List Cell) (start goal : Cell) :
    SearchInv W H body start goal
      (heappush [] (mkNode start.1 start.2 0 (heuristic start goal) none)) [] := by
  have hpush : heappush [] (mkNode start.1 start.2 0 (heuristic start goal) none) =
      [mkNode start.1 start.2 0 (heuristic start goal) none] := rfl
  rw [hpush]
  constructor
  · intro n hn
    have : n = mkNode start.1 start.2 0 (heuristic start goal) none := by
      simpa using hn
    rw [this]
    exact goodNode_startNode W H body start goal
  · intro n _
    simp
  · simp [coordsOf]
  · simp
  · intro c hc
    exact absurd hc (by simp)
  · simp

/-! ### The grid as a finite set of cells -/

theorem mem_boundedCells {W H : Nat} {c : Cell} :
    c ∈ boundedCells W H ↔ inBoundsB W H c = true := by
  unfold boundedCells inBoundsB
  simp only [Finset.mem_image, Finset.mem_product, Finset.mem_range,
    Bool.and_eq_true, decide_eq_true_eq]
  constructor
  · rintro ⟨⟨a, b⟩, ⟨ha, hb⟩, rfl⟩
    dsimp only
    refine ⟨⟨⟨Int.ofNat_nonneg a, ?_⟩, Int.ofNat_nonneg b⟩, ?_⟩
    · exact_mod_cast ha
    · exact_mod_cast hb
  · rintro ⟨⟨⟨h1, h2⟩, h3⟩, h4⟩
    refine ⟨(c.1.toNat, c.2.toNat), ⟨?_, ?_⟩, ?_⟩
    · omega
    · omega
    · have e1 : ((c.1.toNat : Int)) = c.1 := Int.toNat_of_nonneg h1
      have e2 : ((c.2.toNat : Int)) = c.2 := Int.toNat_of_nonneg h3
      rw [Prod.ext_iff]
      exact ⟨e1, e2⟩

theorem card_boundedCells (W H : Nat) : (boundedCells W H).card = W * H := by
  unfold boundedCells
  rw [Finset.card_image_of_injOn, Finset.card_product, Finset.card_range,
    Finset.card_range]
  intro p _ q _ hpq
  have h1 : ((p.1 : Int)) = (q.1 : Int) := congrArg Prod.fst hpq
  have h2 : ((p.2 : Int)) = (q.2 : Int) := congrArg Prod.snd hpq
  have : p.1 = q.1 := by exact_mod_cast h1
  have : p.2 = q.2 := by exact_mod_cast h2
  rw [Prod.ext_iff]
  constructor <;> assumption

/-! ### Top-level facts about `astarSearch` and `find_path_astar` -/

theorem inBoundsB_iff {W H : Nat} {c : Cell} :
    inBoundsB W H c = true ↔ inBoundsP W H c := by
  unfold inBoundsB inBoundsP
  simp [Bool.and_eq_true, decide_eq_true_eq, and_assoc]

theorem astarSearch_eq_searchLoop (W H : Nat) (body : List Cell)
    (start goal : Cell) :
    astarSearch W H body start goal =
      searchLoop W H body goal (W * H + 2)
        (heappush [] (mkNode start.1 start.2 0 (heuristic start goal) none))
        [] 0 false := rfl

theorem astarSearch_total (W H : Nat) (body : List Cell) (start goal : Cell) :
    ∃ r, astarSearch W H body start goal = some r := by
  rw [astarSearch_eq_searchLoop]
  have hcapf : ∀ c, c = start ∨ (inBoundsB W H c = true ∧ c ∉ body.dropLast) →
      c ≠ goal → c ∈ insert start ((boundedCells W H).erase goal) := by
    intro c hc hne
    rcases hc with rfl | ⟨hb, _⟩
    · exact Finset.mem_insert_self _ _
    · exact Finset.mem_insert_of_mem
        (Finset.mem_erase.mpr ⟨hne, mem_boundedCells.mpr hb⟩)
  have hcard : (insert start ((boundedCells W H).erase goal)).card + 1 ≤
      ([] : List Cell).length + (W * H + 2) := by
    have h1 := Finset.card_insert_le start ((boundedCells W H).erase goal)
    have h2 := Finset.card_erase_le (s := boundedCells W H) (a := goal)
    rw [card_boundedCells] at h2
    simp only [List.length_nil]
    omega
  obtain ⟨r, heq, -⟩ := searchLoop_total_spec hcapf (W * H + 2) _ [] 0 false
    (initial_inv W H body start goal) hcard
  exact ⟨r, heq⟩

theorem find_path_of_astar {W H : Nat} {body : List Cell} {start goal : Cell}
    {r : SearchResult} (h : astarSearch W H body start goal = some r) :
    find_path_astar W H body start goal = r.path := by
  unfold find_path_astar
  rw [h]

theorem astar_path_spec {W H : Nat} {body : List Cell} {start goal : Cell}
    {r : SearchResult} (h : astarSearch W H body start goal = some r) :
    r.path = [] ∨ ∃ n : ANode, goodNode W H body start goal n ∧
      ((n.x, n.y) : Cell) = goal ∧ r.path = reconstruct n := by
  rw [astarSearch_eq_searchLoop] at h
  exact searchLoop_path_spec (W * H + 2) _ [] 0 false r
    (initial_inv W H body start goal) h

/-- C3: every cell of a returned path is in bounds and not a member of the
body with its tail removed. -/
theorem C3_path_cells_in_bounds_and_free (W H : Nat) (body : List Cell)
    (start goal c : Cell) (hc : c ∈ find_path_astar W H body start goal) :
    inBoundsP W H c ∧ c ∉ body.dropLast := by
  obtain ⟨r, hr⟩ := astarSearch_total W H body start goal
  rw [find_path_of_astar hr] at hc
  rcases astar_path_spec hr with hnil | ⟨n, hgood, hco, hpath⟩
  · rw [hnil] at hc
    exact absurd hc (by simp)
  · rw [hpath] at hc
    have hcv := reconstruct_cells n hgood c hc
    exact ⟨inBoundsB_iff.mp hcv.1, hcv.2⟩

/-- Witness for C3 at the spec's concrete scenario: on a 5×5 grid with a
single-segment snake at `(2,2)` and food at `(2,0)`, the first returned
cell is valid. -/
theorem C3_witness :
    ((2, 1) : Cell) ∈ find_path_astar 5 5 [(2, 2)] (2, 2) (2, 0) ∧
      (inBoundsP 5 5 (2, 1) ∧ ((2, 1) : Cell) ∉ ([(2, 2)] : List Cell).dropLast) := by
  constructor
  · decide
  · exact C3_path_cells_in_bounds_and_free 5 5 [(2, 2)] (2, 2) (2, 0) (2, 1)
      (by decide)

theorem not_reachable_of_goal_occupied {W H : Nat} {body : List Cell}
    {start goal : Cell} (hg : goal ∈ body.dropLast) (hne : goal ≠ start) :
    ¬ reachableFrom W H body start goal := by
  intro h
  rcases Relation.ReflTransGen.cases_tail h with heq | ⟨c, -, hstep⟩
  · exact hne heq
  · exact (get_neighbors_free hstep).2 hg

/-- C4: when the goal is not reachable from the start through 4-connected
free cells, the search returns the empty path, and the search loop always
terminates normally (the fuelled loop never runs out of fuel, the
embedding's rendering of "never raises"). -/
theorem C4_unreachable_returns_empty (W H : Nat) (body : List Cell)
    (start goal : Cell) (hur : ¬ reachableFrom W H body start goal) :
    find_path_astar W H body start goal = [] ∧
      ∃ r, astarSearch W H body start goal = some r := by
  obtain ⟨r, hr⟩ := astarSearch_total W H body start goal
  refine ⟨?_, r, hr⟩
  rw [find_path_of_astar hr]
  rcases astar_path_spec hr with hnil | ⟨n, hgood, hco, hpath⟩
  · exact hnil
  · exact absurd (hco ▸ reconstruct_reach n hgood) hur

/-- Witness for C4: on a 3×1 corridor whose middle cell idea is blocked —
here the goal cell itself is occupied by the body (tail excluded) — the
goal is unreachable and the returned path is empty. -/
theorem C4_witness :
    find_path_astar 3 1 [(2, 0), (0, 0)] (0, 0) (2, 0) = [] ∧
      ∃ r, astarSearch 3 1 [(2, 0), (0, 0)] (0, 0) (2, 0) = some r :=
  C4_unreachable_returns_empty 3 1 [(2, 0), (0, 0)] (0, 0) (2, 0)
    (not_reachable_of_goal_occupied (by decide) (by decide))

/-- C7: for in-bounds start and goal the search terminates (returns a
result rather than exhausting its fuel), and the number of node
expansions — loop iterations, each popping one node — is at most
`W * H`. -/
theorem C7_termination_and_expansion_bound (W H : Nat) (body : List Cell)
    (start goal : Cell) (hs : inBoundsP W H start) (hg : inBoundsP W H goal) :
    ∃ r, astarSearch W H body start goal = some r ∧ r.pops ≤ W * H := by
  rw [astarSearch_eq_searchLoop]
  have hgmem : goal ∈ boundedCells W H :=
    mem_boundedCells.mpr (inBoundsB_iff.mpr hg)
  have hpos : 0 < W * H := by
    have := Finset.card_pos.mpr ⟨goal, hgmem⟩
    rwa [card_boundedCells] at this
  have hcapf : ∀ c, c = start ∨ (inBoundsB W H c = true ∧ c ∉ body.dropLast) →
      c ≠ goal → c ∈ (boundedCells W H).erase goal := by
    intro c hc hne
    rcases hc with rfl | ⟨hb, -⟩
    · exact Finset.mem_erase.mpr ⟨hne, mem_boundedCells.mpr (inBoundsB_iff.mpr hs)⟩
    · exact Finset.mem_erase.mpr ⟨hne, mem_boundedCells.mpr hb⟩
  have hcarde : ((boundedCells W H).erase goal).card = W * H - 1 := by
    rw [Finset.card_erase_of_mem hgmem, card_boundedCells]
  obtain ⟨r, heq, hb⟩ := searchLoop_total_spec hcapf (W * H + 2) _ [] 0 false
    (initial_inv W H body start goal) (by rw [hcarde]; simp; omega)
  refine ⟨r, heq, ?_⟩
  rw [hcarde] at hb
  simp only [List.length_nil, Nat.sub_zero] at hb
  omega

/-- Witness for C7 at the spec's concrete scenario. -/
theorem C7_witness :
    (inBoundsP 5 5 (2, 2) ∧ inBoundsP 5 5 (2, 0)) ∧
      ∃ r, astarSearch 5 5 [(2, 2)] (2, 2) (2, 0) = some r ∧ r.pops ≤ 5 * 5 :=
  ⟨⟨by decide, by decide⟩,
    C7_termination_and_expansion_bound 5 5 [(2, 2)] (2, 2) (2, 0)
      (by decide) (by decide)⟩

/-! ### The safety fallback -/

theorem mem_safe_directions {W H : Nat} {snake : List Cell} {d : Cell} :
    d ∈ safe_directions W H snake ↔ d ∈ DIRECTIONS ∧
      inBoundsB W H ((snake.headD (0, 0)).1 + d.1, (snake.headD (0, 0)).2 + d.2) = true ∧
      ((snake.headD (0, 0)).1 + d.1, (snake.headD (0, 0)).2 + d.2) ∉ snake := by
  unfold safe_directions
  rw [List.mem_filter]
  simp [Bool.and_eq_true]

/-- C5: whenever some orthogonal neighbour of the head is in bounds and not
on the snake (tail included), `get_safe_direction` returns a direction
whose resulting cell is in bounds and not on the snake; when no such
neighbour exists it returns the previous direction unchanged.  The random
choice of the source is modelled by the arbitrary index `k`. -/
theorem C5_fallback_safety (W H : Nat) (snake : List Cell) (dir : Cell) (k : Nat) :
    ((∃ d ∈ DIRECTIONS,
        inBoundsP W H ((snake.headD (0, 0)).1 + d.1, (snake.headD (0, 0)).2 + d.2) ∧
        ((snake.headD (0, 0)).1 + d.1, (snake.headD (0, 0)).2 + d.2) ∉ snake) →
      inBoundsP W H ((snake.headD (0, 0)).1 + (get_safe_direction W H snake dir k).1,
        (snake.headD (0, 0)).2 + (get_safe_direction W H snake dir k).2) ∧
      ((snake.headD (0, 0)).1 + (get_safe_direction W H snake dir k).1,
        (snake.headD (0, 0)).2 + (get_safe_direction W H snake dir k).2) ∉ snake) ∧
    ((∀ d ∈ DIRECTIONS,
        ¬(inBoundsP W H ((snake.headD (0, 0)).1 + d.1, (snake.headD (0, 0)).2 + d.2) ∧
          ((snake.headD (0, 0)).1 + d.1, (snake.headD (0, 0)).2 + d.2) ∉ snake)) →
      get_safe_direction W H snake dir k = dir) := by
  constructor
  · rintro ⟨d, hdmem, hbp, hnot⟩
    have hdsafe : d ∈ safe_directions W H snake :=
      mem_safe_directions.mpr ⟨hdmem, inBoundsB_iff.mpr hbp, hnot⟩
    have hne : safe_directions W H snake ≠ [] := List.ne_nil_of_mem hdsafe
    have hlen : 0 < (safe_directions W H snake).length := List.length_pos.mpr hne
    have hlt : k % (safe_directions W H snake).length <
        (safe_directions W H snake).length := Nat.mod_lt _ hlen
    have hE : (safe_directions W H snake).isEmpty = false := by
      cases hE : (safe_directions W H snake).isEmpty
      · rfl
      · exact absurd (List.isEmpty_iff.mp hE) hne
    have hresult : get_safe_direction W H snake dir k =
        (safe_directions W H snake).getD
          (k % (safe_directions W H snake).length) (0, 0) := by
      unfold get_safe_direction
      simp [hE]
    have hmem : get_safe_direction W H snake dir k ∈ safe_directions W H snake := by
      rw [hresult, List.getD_eq_getElem _ _ hlt]
      exact List.getElem_mem hlt
    have hprops := mem_safe_directions.mp hmem
    exact ⟨inBoundsB_iff.mp hprops.2.1, hprops.2.2⟩
  · intro hall
    have hnil : safe_directions W H snake = [] := by
      rw [List.eq_nil_iff_forall_not_mem]
      intro d hd
      have hp := mem_safe_directions.mp hd
      exact hall d hp.1 ⟨inBoundsB_iff.mp hp.2.1, hp.2.2⟩
    unfold get_safe_direction
    rw [hnil]
    rfl

/-- Witness for C5: head `(2,2)` on a 5×5 grid with a one-segment snake has
the safe neighbour `(2,1)` via `UP`, and the fallback's result is safe. -/
theorem C5_witness :
    (∃ d ∈ DIRECTIONS,
      inBoundsP 5 5 ((([(2, 2)] : List Cell).headD (0, 0)).1 + d.1,
        (([(2, 2)] : List Cell).headD (0, 0)).2 + d.2) ∧
      ((([(2, 2)] : List Cell).headD (0, 0)).1 + d.1,
        (([(2, 2)] : List Cell).headD (0, 0)).2 + d.2) ∉ ([(2, 2)] : List Cell)) ∧
    (inBoundsP 5 5 ((([(2, 2)] : List Cell).headD (0, 0)).1 +
        (get_safe_direction 5 5 [(2, 2)] (1, 0) 0).1,
      (([(2, 2)] : List Cell).headD (0, 0)).2 +
        (get_safe_direction 5 5 [(2, 2)] (1, 0) 0).2) ∧
      ((([(2, 2)] : List Cell).headD (0, 0)).1 +
          (get_safe_direction 5 5 [(2, 2)] (1, 0) 0).1,
        (([(2, 2)] : List Cell).headD (0, 0)).2 +
          (get_safe_direction 5 5 [(2, 2)] (1, 0) 0).2) ∉ ([(2, 2)] : List Cell)) :=
  ⟨⟨UP, by decide, by decide, by decide⟩,
    (C5_fallback_safety 5 5 [(2, 2)] (1, 0) 0).1
      ⟨UP, by decide, by decide, by decide⟩⟩

/-! ### The tail-exclusion asymmetry -/

theorem getLast_not_mem_dropLast {body : List Cell} (hne : body ≠ [])
    (hnd : body.Nodup) : body.getLastD (0, 0) ∉ body.dropLast := by
  rw [getLastD_eq_getLast body (0, 0) hne]
  have hsplit := List.dropLast_append_getLast hne
  intro hmem
  have hnodup2 : (body.dropLast ++ [body.getLast hne]).Nodup := by
    rw [hsplit]
    exact hnd
  rw [List.nodup_append] at hnodup2
  exact hnodup2.2.2 hmem (by simp)

/-- C9: for a snake of length at least two with distinct cells whose tail
is in bounds and orthogonally adjacent to the head, the Pathfinder's
neighbour query at the head contains the tail cell, while the Safety
Fallback never lists the direction from head to tail as safe. -/
theorem C9_tail_exclusion_asymmetry (W H : Nat) (body : List Cell)
    (hlen : 2 ≤ body.length) (hnd : body.Nodup)
    (hb : inBoundsP W H (body.getLastD (0, 0)))
    (hadj : ∃ d ∈ DIRECTIONS, body.getLastD (0, 0) =
      ((body.headD (0, 0)).1 + d.1, (body.headD (0, 0)).2 + d.2)) :
    body.getLastD (0, 0) ∈ get_neighbors W H body (body.headD (0, 0)) ∧
    ∀ d ∈ DIRECTIONS,
      ((body.headD (0, 0)).1 + d.1, (body.headD (0, 0)).2 + d.2) =
          body.getLastD (0, 0) →
        d ∉ safe_directions W H body := by
  have hne : body ≠ [] := by
    intro h
    rw [h] at hlen
    simp at hlen
  have htail_not : body.getLastD (0, 0) ∉ body.dropLast :=
    getLast_not_mem_dropLast hne hnd
  have htail_mem : body.getLastD (0, 0) ∈ body := by
    rw [getLastD_eq_getLast body (0, 0) hne]
    exact List.getLast_mem hne
  constructor
  · exact mem_get_neighbors.mpr ⟨hadj, inBoundsB_iff.mpr hb, htail_not⟩
  · intro d _ hd hmem
    have hp := mem_safe_directions.mp hmem
    rw [hd] at hp
    exact hp.2.2 htail_mem

/-- Witness for C9 with the two-segment snake `[(1,1),(1,2)]` on a 5×5
grid: the tail `(1,2)` is a neighbour for the Pathfinder but `DOWN` is not
a safe fallback direction. -/
theorem C9_witness :
    (2 ≤ ([(1, 1), (1, 2)] : List Cell).length ∧
      ([(1, 1), (1, 2)] : List Cell).Nodup ∧
      inBoundsP 5 5 (([(1, 1), (1, 2)] : List Cell).getLastD (0, 0)) ∧
      (∃ d ∈ DIRECTIONS, ([(1, 1), (1, 2)] : List Cell).getLastD (0, 0) =
        ((([(1, 1), (1, 2)] : List Cell).headD (0, 0)).1 + d.1,
          (([(1, 1), (1, 2)] : List Cell).headD (0, 0)).2 + d.2))) ∧
    (([(1, 1), (1, 2)] : List Cell).getLastD (0, 0) ∈
        get_neighbors 5 5 [(1, 1), (1, 2)] (([(1, 1), (1, 2)] : List Cell).headD (0, 0)) ∧
      ∀ d ∈ DIRECTIONS,
        ((([(1, 1), (1, 2)] : List Cell).headD (0, 0)).1 + d.1,
            (([(1, 1), (1, 2)] : List Cell).headD (0, 0)).2 + d.2) =
            ([(1, 1), (1, 2)] : List Cell).getLastD (0, 0) →
          d ∉ safe_directions 5 5 [(1, 1), (1, 2)]) :=
  ⟨⟨by decide, by decide, by decide, ⟨DOWN, by decide, by decide⟩⟩,
    C9_tail_exclusion_asymmetry 5 5 [(1, 1), (1, 2)] (by decide) (by decide)
      (by decide) ⟨DOWN, by decide, by decide⟩⟩

/-! ### Calling the search with goal equal to start -/

/-- C10: calling `find_path_astar` with the goal equal to the start returns
the empty sequence — the very first popped node is the start node, the goal
test succeeds immediately, and the reconstructed path (which excludes the
start) is empty.  This is the same value that signals an unreachable
goal. -/
theorem C10_goal_equals_start_returns_empty (W H : Nat) (body : List Cell)
    (start : Cell) : find_path_astar W H body start start = [] := by
  have hpop : heappop (heappush []
      (mkNode start.1 start.2 0 (heuristic start start) none)) =
      some (mkNode start.1 start.2 0 (heuristic start start) none, []) := rfl
  have hg : (decide ((mkNode start.1 start.2 0 (heuristic start start) none).x = start.1) &&
      decide ((mkNode start.1 start.2 0 (heuristic start start) none).y = start.2)) = true := by
    simp [mkNode, ANode.x, ANode.y]
  unfold find_path_astar
  rw [astarSearch_eq_searchLoop]
  rw [show W * H + 2 = (W * H + 1) + 1 from rfl]
  rw [searchLoop_goal hpop hg]
  rfl

/-! ### The tick-level direction (C8) -/

theorem find_path_first_step {W H : Nat} {body : List Cell}
    {start goal next : Cell} {rest : List Cell}
    (h : find_path_astar W H body start goal = next :: rest) :
    ∃ d ∈ DIRECTIONS, next = (start.1 + d.1, start.2 + d.2) := by
  obtain ⟨r, hr⟩ := astarSearch_total W H body start goal
  rw [find_path_of_astar hr] at h
  rcases astar_path_spec hr with hnil | ⟨n, hgood, -, hpath⟩
  · rw [hnil] at h
    exact absurd h (by simp)
  · rw [hpath] at h
    rcases reconstruct_first n hgood with h0 | ⟨c, r2, hcr, hcn⟩
    · rw [h0] at h
      exact absurd h (by simp)
    · rw [hcr] at h
      injection h with h1 h2
      obtain ⟨d, hd, hcd⟩ := (mem_get_neighbors.mp hcn).1
      exact ⟨d, hd, by rw [← h1]; exact hcd⟩

theorem delta_of_step {start next d : Cell}
    (h : next = (start.1 + d.1, start.2 + d.2)) :
    ((next.1 - start.1, next.2 - start.2) : Cell) = d := by
  subst h
  rw [Prod.ext_iff]
  constructor
  · simp
  · simp

theorem update_ai_direction_eq (W H : Nat) (snake : List Cell)
    (food dir : Cell) (k : Nat) :
    update_ai_direction W H snake food dir k =
      match find_path_astar W H snake (snake.headD (0, 0)) food with
      | [] => get_safe_direction W H snake dir k
      | next :: _ =>
        ((next.1 - (snake.headD (0, 0)).1,
          next.2 - (snake.headD (0, 0)).2) : Cell) := rfl

theorem update_ai_direction_mem {W H : Nat} {snake : List Cell}
    {food dir : Cell} {k : Nat} (hdir : dir ∈ DIRECTIONS) :
    update_ai_direction W H snake food dir k ∈ DIRECTIONS := by
  rw [update_ai_direction_eq]
  cases hp : find_path_astar W H snake (snake.headD (0, 0)) food with
  | nil =>
    show get_safe_direction W H snake dir k ∈ DIRECTIONS
    unfold get_safe_direction
    cases hE : (safe_directions W H snake).isEmpty with
    | true =>
      simp only [hE, if_true]
      exact hdir
    | false =>
      simp only [hE, Bool.false_eq_true, if_false]
      have hne : safe_directions W H snake ≠ [] := by
        intro hnil
        rw [hnil] at hE
        simp at hE
      have hlen : 0 < (safe_directions W H snake).length := List.length_pos.mpr hne
      have hlt : k % (safe_directions W H snake).length <
          (safe_directions W H snake).length := Nat.mod_lt _ hlen
      rw [List.getD_eq_getElem _ _ hlt]
      exact (mem_safe_directions.mp (List.getElem_mem hlt)).1
  | cons next rest =>
    show ((next.1 - (snake.headD (0, 0)).1,
      next.2 - (snake.headD (0, 0)).2) : Cell) ∈ DIRECTIONS
    obtain ⟨d, hd, hnd⟩ := find_path_first_step hp
    rw [delta_of_step hnd]
    exact hd

theorem runTicks_mem {W H : Nat} :
    ∀ (inputs : List (List Cell × Cell × Nat)) (dir : Cell),
      dir ∈ DIRECTIONS → runTicks W H inputs dir ∈ DIRECTIONS
  | [], dir, h => h
  | inp :: rest, dir, h => by
    have hstep : runTicks W H (inp :: rest) dir =
        runTicks W H rest (update_ai_direction W H inp.1 inp.2.1 dir inp.2.2) := by
      unfold runTicks
      rw [List.foldl_cons]
    rw [hstep]
    exact runTicks_mem rest _ (update_ai_direction_mem h)

/-- C8: starting from the initial direction `RIGHT = (1,0)`, for every
sequence of engine ticks (arbitrary snake, food and random index each
tick) the direction handed to the shell is one of the four unit vectors;
in particular, whenever a path is found, the delta between the head and
the path's first cell is a unit vector. -/
theorem C8_direction_always_unit_vector (W H : Nat) :
    (∀ inputs : List (List Cell × Cell × Nat),
      runTicks W H inputs RIGHT ∈ DIRECTIONS) ∧
    (∀ (body : List Cell) (start goal next : Cell) (rest : List Cell),
      find_path_astar W H body start goal = next :: rest →
      ((next.1 - start.1, next.2 - start.2) : Cell) ∈ DIRECTIONS) := by
  constructor
  · intro inputs
    exact runTicks_mem inputs RIGHT (by simp [DIRECTIONS])
  · intro body start goal next rest h
    obtain ⟨d, hd, hnd⟩ := find_path_first_step h
    rw [delta_of_step hnd]
    exact hd

/-- Witness for C8 at the spec's concrete scenario (5×5 grid, snake
`[(2,2)]`, food `(2,0)`): one tick yields a unit vector, and the first
path cell's delta is a unit vector. -/
theorem C8_witness :
    runTicks 5 5 [([(2, 2)], (2, 0), 0)] RIGHT ∈ DIRECTIONS ∧
    (find_path_astar 5 5 [(2, 2)] (2, 2) (2, 0) = (2, 1) :: [(2, 0)] ∧
      ((((2 : Int), (1 : Int)).1 - ((2 : Int), (2 : Int)).1,
        (((2 : Int), (1 : Int))).2 - ((2 : Int), (2 : Int)).2) : Cell) ∈ DIRECTIONS) :=
  ⟨(C8_direction_always_unit_vector 5 5).1 [([(2, 2)], (2, 0), 0)],
    by rfl,
    (C8_direction_always_unit_vector 5 5).2 [(2, 2)] (2, 2) (2, 0) (2, 1) [(2, 0)]
      (by rfl)⟩

/-! ### Counterexample evaluations (C1, C2, C6) -/

/-- C1 (code bug, counterexample evaluation): on an 8×8 grid with the four
obstacles `(1,5),(2,4),(3,2),(3,4)` (the body minus its tail) and the
head at `(6,5)`, `find_path_astar` returns a 10-step path to `(1,2)`,
while a valid 8-step path exists — the in-place decrease-key mutation of
nodes inside the `heapq` heap (without re-heapifying) lets the search
close a cell with a suboptimal `g`, so the returned path is not
shortest. -/
theorem C1_optimality_counterexample :
    find_path_astar 8 8 [(1, 5), (2, 4), (3, 2), (3, 4), (6, 5)] (6, 5) (1, 2) =
      [(6, 4), (6, 3), (6, 2), (5, 2), (4, 2), (4, 1), (3, 1), (2, 1), (2, 2), (1, 2)] ∧
    (find_path_astar 8 8 [(1, 5), (2, 4), (3, 2), (3, 4), (6, 5)] (6, 5) (1, 2)).length = 10 ∧
    validSeq 8 8 [(1, 5), (2, 4), (3, 2), (3, 4), (6, 5)] (6, 5)
      [(5, 5), (4, 5), (4, 4), (4, 3), (3, 3), (2, 3), (1, 3), (1, 2)] (1, 2) = true ∧
    ([(5, 5), (4, 5), (4, 4), (4, 3), (3, 3), (2, 3), (1, 3), (1, 2)] : List Cell).length = 8 :=
  ⟨rfl, rfl, rfl, rfl⟩

/-- C2 (code bug, counterexample evaluation): on a 5×5 grid with body
`[(0,3),(1,3),(1,4),(4,1)]`, head `(4,1)` and goal `(0,4)`, some
iteration of the main loop pops a node whose `f` is not minimal among the
open set (`minViolated` records exactly this): the in-place decrease-key
mutation of a node inside the heap breaks the heap invariant that
`heapq.heappop` relies on. -/
theorem C2_minimal_pop_counterexample :
    (astarSearch 5 5 [(0, 3), (1, 3), (1, 4), (4, 1)] (4, 1) (0, 4)).elim
      false SearchResult.minViolated = true := rfl

/-- C6 (code bug, counterexample evaluation): on the program's own
40×30 grid (`GRID_WIDTH × GRID_HEIGHT`) with no obstacles (body =
`[(8,1)]`, so the search-time occupied set is empty), the path returned
from `(8,1)` to `(14,15)` has length 22, strictly longer than the
Manhattan distance 20 — and a valid path of length 20 exists. -/
theorem C6_admissibility_counterexample :
    (find_path_astar 40 30 [(8, 1)] (8, 1) (14, 15)).length = 22 ∧
    heuristic (8, 1) (14, 15) = 20 ∧
    validSeq 40 30 [(8, 1)] (8, 1)
      [(8, 2), (8, 3), (8, 4), (8, 5), (8, 6), (8, 7), (8, 8), (8, 9), (8, 10),
       (8, 11), (8, 12), (8, 13), (8, 14), (8, 15), (9, 15), (10, 15), (11, 15),
       (12, 15), (13, 15), (14, 15)] (14, 15) = true ∧
    ([(8, 2), (8, 3), (8, 4), (8, 5), (8, 6), (8, 7), (8, 8), (8, 9), (8, 10),
      (8, 11), (8, 12), (8, 13), (8, 14), (8, 15), (9, 15), (10, 15), (11, 15),
      (12, 15), (13, 15), (14, 15)] : List Cell).length = 20 ∧
    GRID_WIDTH = 40 ∧ GRID_HEIGHT = 30 :=
  ⟨rfl, rfl, rfl, rfl, rfl, rfl⟩

end SnakeAI
